import Mathlib

/-!
# Verification of the procedural reasoning-task generators

A shallow embedding of the generation framework of this repository
(`factory.py`, `algorithmic/letter_counting.py`, `games/countdown.py`,
`cognition/color_cube_rotation.py`) together with theorems settling the
behavioural claims about it.

Python's `random.Random(k)` is modelled abstractly: a `Rng` is an infinite
tape of raw draws together with a position; `randint`, `choice` and
`shuffle` consume draws positionally.  A theorem quantifying over the tape
holds for every realisation of the Mersenne-Twister stream; a theorem at a
concrete tape exhibits behaviour reachable for some realisation of the
stream.  Python `int` values are `Int`, Python strings are `String`,
fallible operations return `Option`/`Except`.
-/

/-- Abstract pseudorandom stream: an infinite tape of raw draws plus the
current position.  Models one `random.Random` instance. -/
structure Rng where
  tape : Nat → Nat
  pos : Nat

/-- Consume one raw draw. -/
def Rng.next (r : Rng) : Nat × Rng :=
  (r.tape r.pos, ⟨r.tape, r.pos + 1⟩)

/-- `random.Random.randint(a, b)`: uniform on `[a, b]`; raises `ValueError`
(modelled as `none`) when `a > b`. -/
def Rng.randint (r : Rng) (a b : Int) : Option (Int × Rng) :=
  if a > b then none
  else
    let (v, r1) := r.next
    some (a + ((v % (b - a + 1).toNat : Nat) : Int), r1)

/-- `random.Random.choice(l)`: uniform element of `l`; raises (modelled as
`none`) on an empty sequence. -/
def Rng.choice {α : Type} (r : Rng) (l : List α) : Option (α × Rng) :=
  match l with
  | [] => none
  | x :: xs =>
    let (v, r1) := r.next
    some ((x :: xs).getD (v % (x :: xs).length) x, r1)

/-- Swap two positions of a list of integers (no-op out of bounds),
used by the Fisher-Yates shuffle. -/
def listSwap (l : List Int) (i j : Nat) : List Int :=
  let x := l.getD i 0
  let y := l.getD j 0
  (l.set i y).set j x

/-- Fisher-Yates step sequence of `random.Random.shuffle`: for `i` from
`len-1` down to `1`, draw `j` in `[0, i]` and swap positions `i` and `j`. -/
def shuffleGo : List Int → Rng → Nat → List Int × Rng
  | l, r, 0 => (l, r)
  | l, r, i + 1 =>
    let (v, r1) := r.next
    shuffleGo (listSwap l (i + 1) (v % (i + 2))) r1 i

/-- `random.Random.shuffle(l)` on a list of integers. -/
def Rng.shuffleList (r : Rng) (l : List Int) : List Int × Rng :=
  shuffleGo l r (l.length - 1)

/-! ## Letter counting (`algorithmic/letter_counting.py`) -/

/-- `LetterCountingConfig`: fields of the dataclass. -/
structure LetterCountingConfig where
  min_words : Int := 5
  max_words : Int := 15
  seed : Option Int := none
  size : Int := 500
deriving DecidableEq

/-- `LetterCountingConfig.validate`: the two asserts, in source order. -/
def LetterCountingConfig.validate (c : LetterCountingConfig) : Except String Unit :=
  if ¬ (c.min_words > 0) then Except.error "min_words must be positive"
  else if ¬ (c.max_words ≥ c.min_words) then Except.error "max_words must be >= min_words"
  else Except.ok ()

/-- Python `str.lower()` (the corpus and spans here are ASCII, where
per-character lowering coincides with Python's case folding). -/
def strLower (s : String) : String := ⟨s.data.map Char.toLower⟩

/-- First-occurrence list of the distinct characters of a string; models
`set(s)` with a canonical iteration order (Python's set order is
unspecified; only membership and cardinality are relied upon). -/
def uniqueChars (s : String) : List Char :=
  s.data.foldl (fun acc c => if c ∈ acc then acc else acc ++ [c]) []

/-- One generated letter-counting sample: the `question`/`answer` strings
plus the `metadata` fields. -/
structure LCSample where
  question : String
  answer : String
  span_length : Int
  target_letter : Char
  span : List String
deriving DecidableEq

/-- The literal question f-string of `LetterCountingDataset.__getitem__`. -/
def lcQuestion (target : Char) (span : List String) : String :=
  "How many times does the letter \"" ++ String.singleton target ++
    "\" appear in the text: \"" ++ String.intercalate " " span ++ "\"?"

/-- `LetterCountingDataset.__getitem__(idx)`.  `words` is the preprocessed
corpus, `tapeOf k` is the draw tape of `random.Random(k)`.  Mirrors the
source line by line: span length then start index via `randint`, the span
slice, the case-folded character set with `'a'` fallback, a `choice` of the
target, and the per-word case-folded count. -/
def lcGetItem (words : List String) (cfg : LetterCountingConfig) (seed : Int)
    (tapeOf : Int → Nat → Nat) (idx : Int) : Option LCSample := do
  let r0 : Rng := ⟨tapeOf (seed + idx), 0⟩
  let (spanLength, r1) ← r0.randint cfg.min_words cfg.max_words
  let (startIdx, r2) ← r1.randint 0 ((words.length : Int) - spanLength)
  let span := (words.drop startIdx.toNat).take spanLength.toNat
  let chars := uniqueChars (strLower (String.join span))
  let letters := if chars = [] then ['a'] else chars
  let (target, _r3) ← r2.choice letters
  let count := (span.map (fun w => (strLower w).data.count target)).sum
  pure { question := lcQuestion target span
         answer := toString count
         span_length := spanLength
         target_letter := target
         span := span }

/-- The state of a `LetterCountingDataset` object: the immutable fields set
in `__init__` plus `_current_idx`, the single mutable attribute (written
only by `__iter__`/`__next__`). -/
structure LCDataset where
  words : List String
  config : LetterCountingConfig
  seed : Int
  tapeOf : Int → Nat → Nat
  cur : Int

/-- `LetterCountingDataset.__init__`: validate the config, resolve the
seed (explicit, else one unseeded draw `entropy`), load the corpus. -/
def LCDataset.init (cfg : LetterCountingConfig) (words : List String)
    (entropy : Int) : Except String LCDataset := do
  let _ ← cfg.validate
  Except.ok ⟨words, cfg, cfg.seed.getD entropy, fun k _ => k.toNat, 0⟩

/-- Indexed access: reads only the immutable fields, never `cur`. -/
def LCDataset.getItem (d : LCDataset) (idx : Int) : Option LCSample :=
  lcGetItem d.words d.config d.seed d.tapeOf idx

/-- `__iter__`: sets `_current_idx = 0` and returns `self` — the dataset
object itself is the iterator; there is one shared cursor. -/
def LCDataset.iterStart (d : LCDataset) : LCDataset :=
  { d with cur := 0 }

/-- `__next__`: `StopIteration` (outer `none`) once the shared cursor has
reached `size`, else the sample at the cursor, advancing it. -/
def LCDataset.nextItem (d : LCDataset) : Option (Option LCSample) × LCDataset :=
  if d.cur ≥ d.config.size then (none, d)
  else (some (d.getItem d.cur), { d with cur := d.cur + 1 })

/-- `n` successive `__next__` calls, keeping only the final state. -/
def LCDataset.nextN (d : LCDataset) : Nat → LCDataset
  | 0 => d
  | n + 1 => (d.nextItem).2.nextN n

/-- An access to the dataset: indexed access, an iteration request, or an
iteration step. -/
inductive LCOp where
  | get (i : Int)
  | iter
  | next

/-- Effect of one access on the dataset state: `__getitem__` writes no
attribute; `__iter__` resets the shared cursor; `__next__` advances it. -/
def LCDataset.runOp (d : LCDataset) : LCOp → LCDataset
  | .get _ => d
  | .iter => d.iterStart
  | .next => (d.nextItem).2

/-- Effect of a whole access history. -/
def LCDataset.runOps (d : LCDataset) : List LCOp → LCDataset
  | [] => d
  | op :: ops => (d.runOp op).runOps ops

theorem LCDataset.runOp_fields (d : LCDataset) (op : LCOp) :
    (d.runOp op).words = d.words ∧ (d.runOp op).config = d.config ∧
    (d.runOp op).seed = d.seed ∧ (d.runOp op).tapeOf = d.tapeOf := by
  cases op with
  | get i => simp [runOp]
  | iter => simp [runOp, iterStart]
  | next => simp only [runOp, nextItem]; split <;> simp

theorem LCDataset.runOps_fields (d : LCDataset) (ops : List LCOp) :
    (d.runOps ops).words = d.words ∧ (d.runOps ops).config = d.config ∧
    (d.runOps ops).seed = d.seed ∧ (d.runOps ops).tapeOf = d.tapeOf := by
  induction ops generalizing d with
  | nil => simp [runOps]
  | cons op ops ih =>
    have h := d.runOp_fields op
    have h2 := ih (d.runOp op)
    simp only [runOps]
    exact ⟨h2.1.trans h.1, h2.2.1.trans h.2.1, h2.2.2.1.trans h.2.2.1,
      h2.2.2.2.trans h.2.2.2⟩

theorem LCDataset.getItem_of_fields (d e : LCDataset) (i : Int)
    (hw : d.words = e.words) (hc : d.config = e.config)
    (hs : d.seed = e.seed) (ht : d.tapeOf = e.tapeOf) :
    d.getItem i = e.getItem i := by
  simp [getItem, hw, hc, hs, ht]

/-! ## Countdown (`games/countdown.py`) -/

/-- The left-associative expression tree built by
`CountdownDataset._generate_expression`: the sympy expression over the
symbols `x0, x1, ...` (leaf `i` is `syms[i]`). -/
inductive CExpr where
  | leaf (i : Nat)
  | add (a b : CExpr)
  | sub (a b : CExpr)
  | mul (a b : CExpr)
  | div (a b : CExpr)
deriving DecidableEq

/-- An unreduced fraction of integers; the computable carrier of exact
rational arithmetic (kernel-reducible, unlike `Rat`). -/
structure Frac where
  num : Int
  den : Int
deriving DecidableEq

/-- Exact evaluation of the expression after substituting `ns` for the
symbols, on unreduced fractions; `none` models a division by zero during
substitution. -/
def CExpr.evalFrac (ns : List Int) : CExpr → Option Frac
  | .leaf i => some ⟨ns.getD i 0, 1⟩
  | .add a b => do
    let x ← a.evalFrac ns
    let y ← b.evalFrac ns
    pure ⟨x.num * y.den + y.num * x.den, x.den * y.den⟩
  | .sub a b => do
    let x ← a.evalFrac ns
    let y ← b.evalFrac ns
    pure ⟨x.num * y.den - y.num * x.den, x.den * y.den⟩
  | .mul a b => do
    let x ← a.evalFrac ns
    let y ← b.evalFrac ns
    pure ⟨x.num * y.num, x.den * y.den⟩
  | .div a b => do
    let x ← a.evalFrac ns
    let y ← b.evalFrac ns
    if y.num = 0 then none else pure ⟨x.num * y.den, x.den * y.num⟩

/-- Exact evaluation in `ℚ`: the specification-level meaning of the
expression (and of its printed form with the numbers substituted, since
sympy printing and the textual digit substitution are value-faithful). -/
def CExpr.evalRat (ns : List Int) : CExpr → Option Rat
  | .leaf i => some ((ns.getD i 0 : Int) : Rat)
  | .add a b => do pure ((← a.evalRat ns) + (← b.evalRat ns))
  | .sub a b => do pure ((← a.evalRat ns) - (← b.evalRat ns))
  | .mul a b => do pure ((← a.evalRat ns) * (← b.evalRat ns))
  | .div a b => do
    let x ← a.evalRat ns
    let y ← b.evalRat ns
    if y = 0 then none else pure (x / y)

/-- Python `int(...)` on an exact rational: truncation toward zero. -/
def pyInt (f : Frac) : Int := Int.tdiv f.num f.den

/-- `CountdownConfig`: fields of the dataclass. -/
structure CountdownConfig where
  min_numbers : Int := 4
  max_numbers : Int := 6
  min_value : Int := 1
  max_value : Int := 100
  min_target : Int := 100
  max_target : Int := 999
  operators : List String := ["+", "-", "*", "/"]
  shuffle : Bool := true
  seed : Option Int := none
  size : Int := 500

/-- `CountdownConfig.validate`: the eight asserts, in source order. -/
def CountdownConfig.validate (c : CountdownConfig) : Except String Unit :=
  if ¬ (c.min_numbers > 1) then Except.error "min_numbers must be greater than 1"
  else if ¬ (c.max_numbers ≥ c.min_numbers) then Except.error "max_numbers must be >= min_numbers"
  else if ¬ (c.min_value > 0) then Except.error "min_value must be positive"
  else if ¬ (c.max_value ≥ c.min_value) then Except.error "max_value must be >= min_value"
  else if ¬ (c.min_target > 0) then Except.error "min_target must be positive"
  else if ¬ (c.max_target ≥ c.min_target) then Except.error "max_target must be >= min_target"
  else if c.operators.length = 0 then Except.error "must specify at least one operator"
  else if ¬ (c.operators.all fun op => op = "+" ∨ op = "-" ∨ op = "*" ∨ op = "/") then
    Except.error "invalid operator specified"
  else Except.ok ()

/-- State of the expression-building loop of `_generate_expression`: the
(mutated) `numbers` list, the expression so far, the rng, and two ghost
counters recording how often the two fallback branches ran (`addFb`: the
`numbers[i] == 0` else-branch falling back to addition; `subFb`: the empty
`remaining` fallback to subtraction). -/
structure BuildOut where
  numbers : List Int
  expr : CExpr
  rng : Rng
  addFb : Nat
  subFb : Nat

/-- One iteration `i` of the `for i in range(1, num_terms)` loop: draw an
operator; `+`/`-`/`*` extend the expression; anything else is the division
branch with its divisor swap (`numbers[i] = div`) and the two fallbacks. -/
def buildStep (ops : List String) (st : BuildOut) (i : Nat) : Option BuildOut := do
  let (op, r1) ← st.rng.choice ops
  if op = "+" then pure { st with expr := .add st.expr (.leaf i), rng := r1 }
  else if op = "-" then pure { st with expr := .sub st.expr (.leaf i), rng := r1 }
  else if op = "*" then pure { st with expr := .mul st.expr (.leaf i), rng := r1 }
  else
    if st.numbers.getD i 0 ≠ 0 then
      let remaining := (st.numbers.drop i).filter fun n => n != 0
      if remaining.length ≠ 0 then do
        let (dv, r2) ← r1.choice remaining
        pure { st with numbers := st.numbers.set i dv
                       expr := .div st.expr (.leaf i), rng := r2 }
      else pure { st with expr := .sub st.expr (.leaf i), rng := r1
                          subFb := st.subFb + 1 }
    else pure { st with expr := .add st.expr (.leaf i), rng := r1
                        addFb := st.addFb + 1 }

/-- The loop over `i = 1 .. num_terms - 1` (`count` iterations left,
current index `i`). -/
def buildLoop (ops : List String) : Nat → Nat → BuildOut → Option BuildOut
  | 0, _, st => some st
  | k + 1, i, st => do buildLoop ops k (i + 1) (← buildStep ops st i)

/-- The list comprehension drawing the `num_terms` source numbers, in
index order. -/
def drawNumbersGo (cfg : CountdownConfig) : Nat → Rng → List Int → Option (List Int × Rng)
  | 0, r, acc => some (acc, r)
  | n + 1, r, acc => do
    let (v, r1) ← r.randint cfg.min_value cfg.max_value
    drawNumbersGo cfg n r1 (acc ++ [v])

/-- Lines 85-120 of `_generate_expression`: draw `num_terms`, draw the
numbers, run the building loop starting from `syms[0]`. -/
def genBuild (cfg : CountdownConfig) (rng : Rng) : Option BuildOut := do
  let (numTermsI, r1) ← rng.randint cfg.min_numbers cfg.max_numbers
  let numTerms := numTermsI.toNat
  let (numbers, r2) ← drawNumbersGo cfg numTerms r1 []
  buildLoop cfg.operators (numTerms - 1) 1 ⟨numbers, .leaf 0, r2, 0, 0⟩

/-- Outcome of one full attempt of `_generate_expression`: an accepted
in-bounds sample, an out-of-bounds target triggering the recursive
resample, or an uncaught error.  (A zero denominator at substitution makes
`int(...)` of sympy's `zoo` raise a `TypeError`, which the
`except (ValueError, ZeroDivisionError)` clause does not catch, so it is
modelled as `failed`, not as a resample.) -/
inductive AttemptResult where
  | accepted (expr : CExpr) (numbers : List Int) (target : Int) (rng : Rng)
  | rejected (rng : Rng)
  | failed

/-- Lines 122-137: substitute, truncate to `int`, accept iff the target is
within `[min_target, max_target]`. -/
def genAttempt (cfg : CountdownConfig) (rng : Rng) : AttemptResult :=
  match genBuild cfg rng with
  | none => .failed
  | some out =>
    match out.expr.evalFrac out.numbers with
    | none => .failed
    | some f =>
      let target := pyInt f
      if cfg.min_target ≤ target ∧ target ≤ cfg.max_target then
        .accepted out.expr out.numbers target out.rng
      else .rejected out.rng

/-- `_generate_expression` with its unbounded recursive resampling made
explicit by a fuel parameter: the Python recursion terminates on a given
stream exactly when some fuel suffices. -/
def genExpr (cfg : CountdownConfig) : Nat → Rng → Option (CExpr × List Int × Int × Rng)
  | 0, _ => none
  | fuel + 1, rng =>
    match genAttempt cfg rng with
    | .accepted e ns t r => some (e, ns, t, r)
    | .rejected r => genExpr cfg fuel r
    | .failed => none

/-- One countdown sample.  The textual `answer` (`str(expr)` with the
symbols textually replaced by the numbers) is represented by its parse:
`answerExpr` over `answerNums`; evaluating the printed string with exact
arithmetic is `answerExpr.evalRat answerNums` (sympy printing of these
expressions and the digit substitution for the distinct symbols are
value-faithful).  `numbers` is the metadata list (shuffled when
`config.shuffle`). -/
structure CountdownSample where
  question : String
  answerExpr : CExpr
  answerNums : List Int
  numbers : List Int
  target : Int
deriving DecidableEq

/-- The three `_prompt_templates`, after `.format`. -/
def countdownTemplate (t : Nat) (numbersStr : String) (target : Int) : String :=
  if t = 0 then
    "Using the numbers " ++ numbersStr ++ ", create an expression that equals " ++
      toString target ++ ".\nYou can only use each number once."
  else if t = 1 then
    "Find a way to make " ++ toString target ++ " using some or all of these numbers: " ++
      numbersStr ++ ".\nEach number can only be used once."
  else
    "Calculate " ++ toString target ++ " using the numbers " ++ numbersStr ++
      ".\nEach number may be used at most once."

/-- `CountdownDataset.__getitem__(idx)`: seed a fresh stream with
`seed + idx`, generate, optionally shuffle the numbers, pick a prompt
template. -/
def countdownGetItem (cfg : CountdownConfig) (seed : Int) (tapeOf : Int → Nat → Nat)
    (fuel : Nat) (idx : Int) : Option CountdownSample := do
  let rng : Rng := ⟨tapeOf (seed + idx), 0⟩
  let (expr, numbers, target, r1) ← genExpr cfg fuel rng
  let (numbers2, r2) := if cfg.shuffle then r1.shuffleList numbers else (numbers, r1)
  let numbersStr := String.intercalate ", " (numbers2.map toString)
  let (t, _r3) ← r2.choice [0, 1, 2]
  pure { question := countdownTemplate t numbersStr target
         answerExpr := expr
         answerNums := numbers
         numbers := numbers2
         target := target }

/-- Modelled from the spec: the base class `ProceduralDataset`
(`src/reasoning_gym/dataset.py`) is not under `src/`; only its subclasses
and `factory.py` refer to it.  Per spec §4.1 ("Validation must run before
any sample is produced, either eagerly at Dataset construction ...") and
§3 ("a resolved base seed (explicit seed if provided, else one drawn from
an unseeded source at construction time)"), its initialiser runs the
validation it is given and resolves the base seed. -/
def proceduralDatasetInitBase (validation : Except String Unit) (seed : Option Int)
    (entropy : Int) : Except String Int := do
  let _ ← validation
  Except.ok (seed.getD entropy)

/-- The immutable state of a constructed `CountdownDataset`. -/
structure CountdownDatasetState where
  config : CountdownConfig
  seed : Int

/-- `CountdownDataset.__init__`: delegates config, seed and size to
`ProceduralDataset.__init__`. -/
def countdownInit (cfg : CountdownConfig) (entropy : Int) :
    Except String CountdownDatasetState := do
  let s ← proceduralDatasetInitBase cfg.validate cfg.seed entropy
  Except.ok ⟨cfg, s⟩

/-! ## Color cube rotation (`cognition/color_cube_rotation.py`) -/

/-- The `Color` palette. -/
inductive Color where
  | red | green | blue | yellow | white | orange
deriving DecidableEq

/-- A `Cube`: one color per side, sides in the `Side` enum order
(TOP, RIGHT, FRONT, LEFT, BACK, BOTTOM). -/
structure Cube where
  top : Color
  right : Color
  front : Color
  left : Color
  back : Color
  bottom : Color
deriving DecidableEq

/-- `Cube.rotate_front_to_top`: top gets the old front, front the old
bottom, bottom the old back, back the old top; right and left stay. -/
def Cube.rotate_front_to_top (c : Cube) : Cube :=
  { c with top := c.front, front := c.bottom, bottom := c.back, back := c.top }

/-- `ColorCubeRotationConfig`: fields of the dataclass. -/
structure ColorCubeRotationConfig where
  min_rotations : Int := 1
  max_rotations : Int := 3
  seed : Option Int := none
  size : Int := 500

/-- `ColorCubeRotationConfig.validate`: the two asserts, in source order. -/
def ColorCubeRotationConfig.validate (c : ColorCubeRotationConfig) : Except String Unit :=
  if ¬ (c.min_rotations > 0) then Except.error "min_rotations must be positive"
  else if ¬ (c.max_rotations ≥ c.min_rotations) then Except.error "max_rotations must be >= min_rotations"
  else Except.ok ()

/-- `ColorCubeRotationDataset.__init__`: validates its config itself, then
delegates seed and size to `ProceduralDataset.__init__` (passing no
config). -/
def colorCubeInit (cfg : ColorCubeRotationConfig) (entropy : Int) :
    Except String (ColorCubeRotationConfig × Int) := do
  let _ ← cfg.validate
  let s ← proceduralDatasetInitBase (Except.ok ()) cfg.seed entropy
  Except.ok (cfg, s)

/-! ## Registry (`factory.py`) -/

/-- The aspects of a Python class object the registry inspects:
`issubclass(·, ProceduralDataset)` and `is_dataclass(·)`. -/
structure PyClass where
  name : String
  isProceduralDataset : Bool
  isDataclass : Bool
deriving DecidableEq

/-- The `_DATASETS` mapping, name to (dataset class, config class);
entries are only ever appended under fresh names. -/
abbrev Registry := List (String × PyClass × PyClass)

/-- Dictionary lookup. -/
def regFind : Registry → String → Option (PyClass × PyClass)
  | [], _ => none
  | (n, p) :: rest, name => if n = name then some p else regFind rest name

/-- `register_dataset`: reject a registered name, a dataset class not
deriving `ProceduralDataset`, or a non-dataclass config class; otherwise
insert. -/
def register_dataset (reg : Registry) (name : String)
    (dataset_cls config_cls : PyClass) : Except String Registry :=
  if (regFind reg name).isSome then
    Except.error ("Dataset '" ++ name ++ "' is already registered")
  else if ¬ dataset_cls.isProceduralDataset then
    Except.error "Dataset class must inherit from ProceduralDataset"
  else if ¬ config_cls.isDataclass then
    Except.error "Config class must be a dataclass"
  else Except.ok (reg ++ [(name, dataset_cls, config_cls)])

/-- `create_dataset`: look the name up and check
`isinstance(config, config_cls)` (modelled by the config value's class,
here the class itself); on success hand the registered pair to the
constructor (construction itself is the dataset class's concern and is
abstracted to returning the pair). -/
def create_dataset (reg : Registry) (name : String) (configCls : PyClass) :
    Except String (PyClass × PyClass) :=
  match regFind reg name with
  | none => Except.error ("Dataset '" ++ name ++ "' not found")
  | some (dcls, ccls) =>
    if configCls = ccls then Except.ok (dcls, ccls)
    else Except.error ("Config must be instance of " ++ ccls.name)

/-! ## General lemmas about the rng primitives -/

theorem Rng.randint_eq (r : Rng) (a b : Int) (h : a ≤ b) :
    ∃ v r1, r.randint a b = some (v, r1) ∧ a ≤ v ∧ v ≤ b ∧ r1 = ⟨r.tape, r.pos + 1⟩ := by
  refine ⟨a + ((r.tape r.pos % (b - a + 1).toNat : Nat) : Int), ⟨r.tape, r.pos + 1⟩, ?_, ?_, ?_, rfl⟩
  · simp [Rng.randint, Rng.next, not_lt.mpr h]
  · omega
  · have hlt : r.tape r.pos % (b - a + 1).toNat < (b - a + 1).toNat :=
      Nat.mod_lt _ (by omega)
    omega

theorem Rng.choice_mem {α : Type} (r : Rng) (l : List α) (h : l ≠ []) :
    ∃ x r1, r.choice l = some (x, r1) ∧ x ∈ l ∧ r1 = ⟨r.tape, r.pos + 1⟩ := by
  cases l with
  | nil => exact absurd rfl h
  | cons y ys =>
    refine ⟨(y :: ys).getD (r.tape r.pos % (y :: ys).length) y, ⟨r.tape, r.pos + 1⟩,
      rfl, ?_, rfl⟩
    have hlt : r.tape r.pos % (y :: ys).length < (y :: ys).length :=
      Nat.mod_lt _ (by simp)
    rw [List.getD_eq_getElem?_getD, List.getElem?_eq_getElem hlt]
    simp [List.getElem_mem]

/-! ## C2: determinism and independence across indices -/

/-- C2.  For a fixed dataset (hence fixed resolved seed), `dataset[i]` is
the same sample no matter how many times it is requested and no matter
which other indices were accessed, or how far any iteration was advanced,
before, after or in between: the result after any two access histories
coincides (in particular, with the empty history).  `__getitem__` derives
all randomness from `Random(seed + idx)` and reads only immutable
attributes, so the access history is irrelevant. -/
theorem lc_getItem_deterministic_and_independent
    (d : LCDataset) (ops1 ops2 : List LCOp) (i : Int) :
    (d.runOps ops1).getItem i = (d.runOps ops2).getItem i := by
  have h1 := d.runOps_fields ops1
  have h2 := d.runOps_fields ops2
  exact LCDataset.getItem_of_fields _ _ i (h1.1.trans h2.1.symm)
    (h1.2.1.trans h2.2.1.symm) (h1.2.2.1.trans h2.2.2.1.symm)
    (h1.2.2.2.trans h2.2.2.2.symm)

/-! ## C6: the front-to-top rotation law -/

/-- C6.  `rotate_front_to_top` applied to the assignment TOP:red,
FRONT:blue, BOTTOM:green, BACK:yellow, LEFT:white, RIGHT:orange yields
TOP:blue, FRONT:green, BOTTOM:yellow, BACK:red with LEFT and RIGHT
unchanged; and for every starting assignment it is exactly the 4-cycle
sending the TOP content to BACK, FRONT to TOP, BOTTOM to FRONT and BACK to
BOTTOM, fixing LEFT and RIGHT. -/
theorem cube_rotate_front_to_top_law :
    (Cube.rotate_front_to_top
        ⟨Color.red, Color.orange, Color.blue, Color.white, Color.yellow, Color.green⟩ =
      ⟨Color.blue, Color.orange, Color.green, Color.white, Color.red, Color.yellow⟩) ∧
    ∀ c : Cube, c.rotate_front_to_top =
      { top := c.front, right := c.right, front := c.bottom, left := c.left,
        back := c.top, bottom := c.back } :=
  ⟨rfl, fun _ => rfl⟩

/-! ## C7: the registry never overwrites -/

theorem regFind_append_of_notMem (reg : Registry) (name : String)
    (p : PyClass × PyClass) (h : regFind reg name = none) :
    regFind (reg ++ [(name, p)]) name = some p := by
  induction reg with
  | nil => simp [regFind]
  | cons q rest ih =>
    simp only [regFind] at h ⊢
    by_cases hq : q.1 = name
    · simp [hq] at h
    · simp only [hq, if_false] at h ⊢
      exact ih h

theorem register_dataset_ok_inv (reg reg1 : Registry) (name : String)
    (d c : PyClass) (h : register_dataset reg name d c = Except.ok reg1) :
    regFind reg name = none ∧ reg1 = reg ++ [(name, d, c)] := by
  unfold register_dataset at h
  by_cases h1 : (regFind reg name).isSome
  · simp [h1] at h
  · constructor
    · exact Option.not_isSome_iff_eq_none.mp h1
    · simp only [h1, if_false] at h
      by_cases h2 : d.isProceduralDataset
      · by_cases h3 : c.isDataclass
        · simp [h2, h3] at h
          exact h.symm
        · simp [h2, h3] at h
      · simp [h2] at h

/-- C7.  When a registration under `name` has succeeded, a second
registration under the same `name` fails with an error, and afterwards the
first registration's (dataset class, config class) pair is still looked up
unchanged and `create_dataset` still constructs from it: the registry
never overwrites an existing name. -/
theorem registry_rejects_duplicate_and_keeps_first
    (reg reg1 : Registry) (name : String) (d1 c1 d2 c2 : PyClass)
    (h : register_dataset reg name d1 c1 = Except.ok reg1) :
    (∃ msg, register_dataset reg1 name d2 c2 = Except.error msg) ∧
    regFind reg1 name = some (d1, c1) ∧
    create_dataset reg1 name c1 = Except.ok (d1, c1) := by
  obtain ⟨hnone, hreg1⟩ := register_dataset_ok_inv reg reg1 name d1 c1 h
  have hfind : regFind reg1 name = some (d1, c1) := by
    rw [hreg1]
    exact regFind_append_of_notMem reg name (d1, c1) hnone
  refine ⟨⟨"Dataset '" ++ name ++ "' is already registered", ?_⟩, hfind, ?_⟩
  · unfold register_dataset
    simp [hfind]
  · unfold create_dataset
    simp [hfind]

/-- Witness for C7 at a concrete registry state. -/
theorem registry_rejects_duplicate_and_keeps_first_witness :
    (register_dataset [] "countdown" ⟨"CountdownDataset", true, true⟩
        ⟨"CountdownConfig", false, true⟩ =
      Except.ok [("countdown", ⟨"CountdownDataset", true, true⟩,
        ⟨"CountdownConfig", false, true⟩)]) ∧
    ((∃ msg, register_dataset
        [("countdown", ⟨"CountdownDataset", true, true⟩, ⟨"CountdownConfig", false, true⟩)]
        "countdown" ⟨"Other", true, true⟩ ⟨"OtherConfig", false, true⟩ =
          Except.error msg) ∧
      regFind [("countdown", ⟨"CountdownDataset", true, true⟩,
        ⟨"CountdownConfig", false, true⟩)] "countdown" =
        some (⟨"CountdownDataset", true, true⟩, ⟨"CountdownConfig", false, true⟩) ∧
      create_dataset [("countdown", ⟨"CountdownDataset", true, true⟩,
        ⟨"CountdownConfig", false, true⟩)] "countdown" ⟨"CountdownConfig", false, true⟩ =
        Except.ok (⟨"CountdownDataset", true, true⟩, ⟨"CountdownConfig", false, true⟩)) :=
  ⟨rfl, registry_rejects_duplicate_and_keeps_first [] _ "countdown" _ _ _ _ rfl⟩

/-! ## C8: inconsistent bounds are rejected before any sample -/

theorem LetterCountingConfig.validate_ok_words (c : LetterCountingConfig) (u : Unit)
    (h : c.validate = Except.ok u) : c.min_words ≤ c.max_words := by
  unfold LetterCountingConfig.validate at h
  split_ifs at h with h1 h2
  omega

theorem CountdownConfig.validate_ok_bounds (c : CountdownConfig) (u : Unit)
    (h : c.validate = Except.ok u) :
    c.min_numbers ≤ c.max_numbers ∧ c.min_value ≤ c.max_value ∧
      c.min_target ≤ c.max_target := by
  unfold CountdownConfig.validate at h
  split_ifs at h
  omega

theorem ColorCubeRotationConfig.validate_ok_rotations (c : ColorCubeRotationConfig) (u : Unit)
    (h : c.validate = Except.ok u) : c.min_rotations ≤ c.max_rotations := by
  unfold ColorCubeRotationConfig.validate at h
  split_ifs at h with h1 h2
  omega

/-- C8.  A config with a minimum field above its paired maximum
(`min_words > max_words`, any of the countdown `min_* > max_*` range
pairs, `min_rotations > max_rotations`) makes the dataset constructor
fail: the assertion error is raised during construction, so no dataset
value exists and no sample can ever be returned from indexed access or
iteration.  (Letter counting and the cube dataset call `validate` in their
own `__init__`; for countdown the validation sits in the spec-modelled
`ProceduralDataset.__init__`.) -/
theorem config_bounds_rejected_before_sampling :
    (∀ (c : LetterCountingConfig) (words : List String) (entropy : Int),
      c.min_words > c.max_words →
      ∃ m, LCDataset.init c words entropy = Except.error m) ∧
    (∀ (c : CountdownConfig) (entropy : Int),
      (c.min_numbers > c.max_numbers ∨ c.min_value > c.max_value ∨
        c.min_target > c.max_target) →
      ∃ m, countdownInit c entropy = Except.error m) ∧
    (∀ (c : ColorCubeRotationConfig) (entropy : Int),
      c.min_rotations > c.max_rotations →
      ∃ m, colorCubeInit c entropy = Except.error m) := by
  refine ⟨?_, ?_, ?_⟩
  · intro c words entropy hgt
    cases hv : c.validate with
    | error m =>
      exact ⟨m, by simp only [LCDataset.init, hv]; rfl⟩
    | ok u =>
      exact absurd (c.validate_ok_words u hv) (by omega)
  · intro c entropy hgt
    cases hv : c.validate with
    | error m =>
      exact ⟨m, by simp only [countdownInit, proceduralDatasetInitBase, hv]; rfl⟩
    | ok u =>
      obtain ⟨h1, h2, h3⟩ := c.validate_ok_bounds u hv
      omega
  · intro c entropy hgt
    cases hv : c.validate with
    | error m =>
      exact ⟨m, by simp only [colorCubeInit, hv]; rfl⟩
    | ok u =>
      exact absurd (c.validate_ok_rotations u hv) (by omega)

/-- Witness for C8 at concrete inconsistent configs. -/
theorem config_bounds_rejected_before_sampling_witness :
    ((5 : Int) > 3 ∧
      ∃ m, LCDataset.init ⟨5, 3, none, 500⟩ ["a"] 0 = Except.error m) ∧
    ((4 : Int) > 2 ∧
      ∃ m, countdownInit ⟨4, 2, 1, 100, 100, 999, ["+"], true, none, 500⟩ 0 =
        Except.error m) ∧
    ((2 : Int) > 1 ∧
      ∃ m, colorCubeInit ⟨2, 1, none, 500⟩ 0 = Except.error m) :=
  ⟨⟨by decide, config_bounds_rejected_before_sampling.1 ⟨5, 3, none, 500⟩ ["a"] 0 (by decide)⟩,
   ⟨by decide, config_bounds_rejected_before_sampling.2.1
      ⟨4, 2, 1, 100, 100, 999, ["+"], true, none, 500⟩ 0 (Or.inl (by decide))⟩,
   ⟨by decide, config_bounds_rejected_before_sampling.2.2 ⟨2, 1, none, 500⟩ 0 (by decide)⟩⟩

/-! ## C3: indexed access performs no bounds check -/

/-- A concrete letter-counting dataset with `size = 3` over a one-word
corpus, with one realisation of the random stream. -/
def lcDsB : LCDataset := ⟨["ab"], ⟨1, 1, some 0, 3⟩, 0, fun _ _ => 0, 0⟩

/-- Counterexample to C3.  On a dataset of declared size 3, both
`dataset[3]` (= `dataset[N]`) and `dataset[-1]` return a sample instead of
failing with a bounds violation: `__getitem__` never compares `idx`
against `size`. -/
theorem lc_out_of_bounds_access_returns_sample :
    lcDsB.config.size = 3 ∧
    (lcDsB.getItem 3).isSome = true ∧
    (lcDsB.getItem (-1)).isSome = true := by
  refine ⟨rfl, by decide, by decide⟩

/-- C3 as amended.  Indexed access ignores the declared size entirely: for
every integer index `i` — below 0, within `[0, size)` or at/above `size`
alike — `dataset[i]` runs the generation recipe on the stream seeded
`seed + i` and returns a sample, provided only that the config bounds are
ordered and the corpus is long enough for the largest span. -/
theorem lc_getItem_ignores_bounds (d : LCDataset) (i : Int)
    (hminmax : d.config.min_words ≤ d.config.max_words)
    (hlen : d.config.max_words ≤ (d.words.length : Int)) :
    (d.getItem i).isSome = true := by
  unfold LCDataset.getItem lcGetItem
  dsimp only
  obtain ⟨L, r1, h1, hL1, hL2, -⟩ :=
    Rng.randint_eq ⟨d.tapeOf (d.seed + i), 0⟩ d.config.min_words d.config.max_words hminmax
  rw [h1]
  simp only [Option.bind_eq_bind, Option.some_bind]
  obtain ⟨st, r2, h2, hst1, hst2, -⟩ :=
    Rng.randint_eq r1 0 ((d.words.length : Int) - L) (by omega)
  rw [h2]
  simp only [Option.some_bind]
  have hne : (if uniqueChars (strLower (String.join (List.take L.toNat (List.drop st.toNat d.words)))) = []
      then ['a']
      else uniqueChars (strLower (String.join (List.take L.toNat (List.drop st.toNat d.words))))) ≠ [] := by
    split
    · simp
    · assumption
  obtain ⟨t, r3, h3, ht, -⟩ := Rng.choice_mem r2 _ hne
  rw [h3]
  simp

/-- Witness for the amended C3 at a concrete out-of-range index. -/
theorem lc_getItem_ignores_bounds_witness :
    (lcDsB.config.min_words ≤ lcDsB.config.max_words ∧
      lcDsB.config.max_words ≤ (lcDsB.words.length : Int)) ∧
    (lcDsB.getItem (-1)).isSome = true :=
  ⟨⟨by decide, by decide⟩, lc_getItem_ignores_bounds lcDsB (-1) (by decide) (by decide)⟩

/-! ## C4: iteration shares one cursor -/

/-- A concrete dataset with `size = 2` whose two samples differ (the
stream of `Random(seed + idx)` is realised as the constant tape `idx`). -/
def lcDsI : LCDataset := ⟨["ab", "cd"], ⟨1, 1, some 0, 2⟩, 0, fun s _ => s.toNat, 0⟩

/-- Counterexample to C4.  `__iter__` returns `self` after resetting the
single `_current_idx` attribute, so iterators are not independent: after
one `next()` on a first iteration, requesting a second iteration resets
the cursor the first iterator uses (from 1 back to 0), and the first
iterator's following `next()` yields index 0's sample again instead of
index 1's — interleaved iterations interfere. -/
theorem lc_interleaved_iterations_interfere :
    (lcDsI.iterStart.nextItem).1 = some (lcDsI.getItem 0) ∧
    ((lcDsI.iterStart.nextItem).2).cur = 1 ∧
    (((lcDsI.iterStart.nextItem).2).iterStart).cur = 0 ∧
    ((((lcDsI.iterStart.nextItem).2).iterStart).nextItem).1 = some (lcDsI.getItem 0) ∧
    lcDsI.getItem 0 ≠ lcDsI.getItem 1 := by
  refine ⟨by decide, by decide, by decide, by decide, by decide⟩

theorem LCDataset.nextN_cur (d : LCDataset) (k : Nat)
    (h : d.cur + (k : Int) ≤ d.config.size) :
    d.nextN k = { d with cur := d.cur + (k : Int) } := by
  induction k generalizing d with
  | zero => simp [LCDataset.nextN]
  | succ k ih =>
    have hlt : ¬ (d.cur ≥ d.config.size) := by push_cast at h; omega
    simp only [LCDataset.nextN, LCDataset.nextItem, hlt, if_false]
    rw [ih { d with cur := d.cur + 1 } (by push_cast at h ⊢; omega)]
    congr 1
    push_cast
    omega

/-- C4 as amended.  The dataset is its own iterator with one shared
cursor: requesting iteration returns the same object with `_current_idx`
reset to 0 (so it rewinds any iteration in progress rather than creating
an independent cursor), and a single uninterleaved iteration then visits
indices `0 .. size-1` in order: after `k` `next()` calls the next `next()`
yields the sample of index `k`. -/
theorem lc_iteration_shared_cursor_visits_in_order (d : LCDataset) (k : Nat)
    (h : (k : Int) < d.config.size) :
    d.iterStart = { d with cur := 0 } ∧
    ((d.iterStart.nextN k).nextItem).1 = some (d.getItem k) := by
  refine ⟨rfl, ?_⟩
  have hstate : d.iterStart.nextN k = { d with cur := (k : Int) } := by
    have := LCDataset.nextN_cur d.iterStart k (by simp [LCDataset.iterStart]; omega)
    simpa [LCDataset.iterStart] using this
  rw [hstate]
  simp only [LCDataset.nextItem]
  rw [if_neg (by simp; omega)]
  rfl

/-- Witness for the amended C4 at a concrete dataset and step count. -/
theorem lc_iteration_shared_cursor_visits_in_order_witness :
    (((1 : Nat) : Int) < lcDsI.config.size) ∧
    (lcDsI.iterStart = { lcDsI with cur := 0 } ∧
      ((lcDsI.iterStart.nextN 1).nextItem).1 = some (lcDsI.getItem 1)) :=
  ⟨by decide, lc_iteration_shared_cursor_visits_in_order lcDsI 1 (by decide)⟩

/-! ## C5: the target character and the count -/

theorem Rng.choice_eq_some_mem {α : Type} (r : Rng) (l : List α) (x : α) (r1 : Rng)
    (h : r.choice l = some (x, r1)) : x ∈ l := by
  cases l with
  | nil => simp [Rng.choice] at h
  | cons y ys =>
    simp only [Rng.choice, Rng.next, Option.some_inj, Prod.mk.injEq] at h
    obtain ⟨hx, -⟩ := h
    subst hx
    have hlt : r.tape r.pos % (y :: ys).length < (y :: ys).length :=
      Nat.mod_lt _ (by simp)
    rw [List.getD_eq_getElem?_getD, List.getElem?_eq_getElem hlt]
    simp [List.getElem_mem]

/-- Summing the per-word case-folded occurrence counts equals counting in
the case-folded concatenation of the whole span. -/
theorem lc_count_sum (span : List String) (c : Char) :
    (span.map (fun w => (strLower w).data.count c)).sum =
    (strLower (String.join span)).data.count c := by
  simp [strLower, String.data_join, List.count_flatten, Function.comp_def, List.map_flatten]

/-- A letter-less span exists only as the empty span, but a span may well
contain digits: the corpus keeps alphanumeric words. -/
def lcCfgD : LetterCountingConfig := ⟨1, 1, some 0, 500⟩

/-- Counterexample to C5.  Over the one-word corpus `["a1"]` (an
alphanumeric token, as `isalnum` filtering admits), a realised stream
makes `__getitem__` pick `'1'` — a digit, not a letter — as the target,
even though the span does contain the letter `'a'`: the draw is over
`set(''.join(span).lower())`, all characters of the span, not over its
letters, and the `'a'` fallback fires only when the span has no characters
at all. -/
theorem lc_target_can_be_nonletter :
    (lcGetItem ["a1"] lcCfgD 0 (fun _ _ => 1) 0).map (fun s => s.target_letter) = some '1' ∧
    '1'.isAlpha = false ∧
    (lcGetItem ["a1"] lcCfgD 0 (fun _ _ => 1) 0).map (fun s => s.span) = some ["a1"] ∧
    'a' ∈ uniqueChars (strLower (String.join ["a1"])) ∧ 'a'.isAlpha = true := by
  refine ⟨by decide, by decide, by decide, by decide, by decide⟩

/-- C5 as amended.  For every sample, the target character is drawn (one
uniform `choice`) from the set of characters — letters and digits alike —
present in the case-folded span, with the fixed fallback `'a'` only when
that character set is empty; and the answer is the total number of
case-folded occurrences of the target across the span (the per-token sum,
which equals the count in the case-folded concatenation). -/
theorem lc_target_from_chars_and_count (words : List String)
    (cfg : LetterCountingConfig) (seed : Int) (tapeOf : Int → Nat → Nat) (idx : Int)
    (s : LCSample) (h : lcGetItem words cfg seed tapeOf idx = some s) :
    (uniqueChars (strLower (String.join s.span)) ≠ [] →
      s.target_letter ∈ uniqueChars (strLower (String.join s.span))) ∧
    (uniqueChars (strLower (String.join s.span)) = [] → s.target_letter = 'a') ∧
    s.answer = toString ((strLower (String.join s.span)).data.count s.target_letter) := by
  unfold lcGetItem at h
  dsimp only at h
  cases h1 : Rng.randint ⟨tapeOf (seed + idx), 0⟩ cfg.min_words cfg.max_words with
  | none => rw [h1] at h; simp at h
  | some p1 =>
    obtain ⟨L, r1⟩ := p1
    rw [h1] at h
    simp only [Option.bind_eq_bind, Option.some_bind] at h
    cases h2 : r1.randint 0 ((words.length : Int) - L) with
    | none => rw [h2] at h; simp at h
    | some p2 =>
      obtain ⟨st, r2⟩ := p2
      rw [h2] at h
      simp only [Option.some_bind] at h
      cases h3 : r2.choice (if uniqueChars (strLower (String.join
          (List.take L.toNat (List.drop st.toNat words)))) = [] then ['a']
          else uniqueChars (strLower (String.join (List.take L.toNat (List.drop st.toNat words))))) with
      | none => rw [h3] at h; simp at h
      | some p3 =>
        obtain ⟨t, r3⟩ := p3
        rw [h3] at h
        simp only [Option.some_bind, Option.pure_def, Option.some_inj] at h
        have ht := Rng.choice_eq_some_mem _ _ _ _ h3
        subst h
        refine ⟨?_, ?_, ?_⟩
        · intro hne
          simp only at hne ⊢
          rw [if_neg hne] at ht
          exact ht
        · intro heq
          simp only at heq ⊢
          rw [if_pos heq] at ht
          simpa using ht
        · simp only
          rw [lc_count_sum]

/-- The sample of `lcGetItem ["ab"] ⟨1, 1, some 0, 500⟩` at index 0 on the
constant-0 stream. -/
def lcSampleW : LCSample := ⟨lcQuestion 'a' ["ab"], "1", 1, 'a', ["ab"]⟩

/-- Witness for the amended C5 at a concrete sample. -/
theorem lc_target_from_chars_and_count_witness :
    lcGetItem ["ab"] lcCfgD 0 (fun _ _ => 0) 0 = some lcSampleW ∧
    ((uniqueChars (strLower (String.join lcSampleW.span)) ≠ [] →
      lcSampleW.target_letter ∈ uniqueChars (strLower (String.join lcSampleW.span))) ∧
    (uniqueChars (strLower (String.join lcSampleW.span)) = [] → lcSampleW.target_letter = 'a') ∧
    lcSampleW.answer =
      toString ((strLower (String.join lcSampleW.span)).data.count lcSampleW.target_letter)) :=
  ⟨by decide, lc_target_from_chars_and_count ["ab"] lcCfgD 0 (fun _ _ => 0) 0 lcSampleW (by decide)⟩

/-! ## C9: the resampling recursion has no cap and can diverge -/

/-- A configuration that passes `validate` but is infeasible: two source
numbers, both forced to 1, only `*` allowed, so every attempt evaluates to
1, outside `[100, 999]`. -/
def cdCfgInf : CountdownConfig :=
  { min_numbers := 2, max_numbers := 2, min_value := 1, max_value := 1,
    min_target := 100, max_target := 999, operators := ["*"],
    shuffle := true, seed := some 0, size := 500 }

theorem genAttempt_cdCfgInf (r : Rng) :
    genAttempt cdCfgInf r = .rejected ⟨r.tape, r.pos + 4⟩ := by
  simp [genAttempt, genBuild, drawNumbersGo, buildLoop, buildStep, Rng.randint,
    Rng.choice, Rng.next, CExpr.evalFrac, pyInt, cdCfgInf, Nat.mod_one]

/-- Counterexample to C9.  `cdCfgInf` validates, yet on every random
stream every attempt of `_generate_expression` is rejected, so the
recursive resampling never returns no matter how many retries are allowed
(`genExpr` fails for every fuel), and `__getitem__` never produces a
sample for any seed and index: the recursion, which has no depth limit in
the source, diverges. -/
theorem countdown_infeasible_never_terminates :
    cdCfgInf.validate = Except.ok () ∧
    (∀ (fuel : Nat) (rng : Rng), genExpr cdCfgInf fuel rng = none) ∧
    (∀ (fuel : Nat) (tapeOf : Int → Nat → Nat) (seed idx : Int),
      countdownGetItem cdCfgInf seed tapeOf fuel idx = none) := by
  have hgen : ∀ (fuel : Nat) (rng : Rng), genExpr cdCfgInf fuel rng = none := by
    intro fuel
    induction fuel with
    | zero => intro rng; rfl
    | succ n ih =>
      intro rng
      simp only [genExpr, genAttempt_cdCfgInf]
      exact ih _
  refine ⟨rfl, hgen, ?_⟩
  intro fuel tapeOf seed idx
  unfold countdownGetItem
  dsimp only
  rw [hgen fuel ⟨tapeOf (seed + idx), 0⟩]
  rfl

/-- The resampling chain starting at `r` reaches an accepted attempt
within `k` resamples. -/
def AcceptsWithin (cfg : CountdownConfig) : Nat → Rng → Prop
  | 0, r => ∃ e ns t r1, genAttempt cfg r = .accepted e ns t r1
  | k + 1, r => (∃ e ns t r1, genAttempt cfg r = .accepted e ns t r1) ∨
      ∃ r1, genAttempt cfg r = .rejected r1 ∧ AcceptsWithin cfg k r1

/-- C9 as amended.  Each attempt is a finite computation and the recursion
terminates exactly when some attempt is accepted: whenever the resampling
chain reaches an accepted expression within `k` resamples, generation
returns a sample with retry budget `k + 1`.  (By the counterexample, a
validated-but-infeasible config reaches no accepted attempt and the
uncapped recursion diverges.) -/
theorem countdown_terminates_of_accepted (cfg : CountdownConfig) (k : Nat) (rng : Rng)
    (h : AcceptsWithin cfg k rng) : (genExpr cfg (k + 1) rng).isSome = true := by
  induction k generalizing rng with
  | zero =>
    simp only [AcceptsWithin] at h
    obtain ⟨e, ns, t, r1, ha⟩ := h
    simp [genExpr, ha]
  | succ k ih =>
    simp only [AcceptsWithin] at h
    rcases h with ⟨e, ns, t, r1, ha⟩ | ⟨r1, ha, hw⟩
    · simp [genExpr, ha]
    · simp only [genExpr, ha]
      exact ih r1 hw

/-- A feasible two-number configuration accepting at the first attempt. -/
def cdCfgOk : CountdownConfig :=
  { min_numbers := 2, max_numbers := 2, min_value := 100, max_value := 100,
    min_target := 100, max_target := 999, operators := ["+"],
    shuffle := false, seed := some 0, size := 500 }

/-- One realised stream. -/
def cdRngW : Rng := ⟨fun _ => 0, 0⟩

/-- Witness for the amended C9: a chain accepting at the first attempt
terminates with fuel 1. -/
theorem countdown_terminates_of_accepted_witness :
    AcceptsWithin cdCfgOk 0 cdRngW ∧ (genExpr cdCfgOk 1 cdRngW).isSome = true := by
  have hW : AcceptsWithin cdCfgOk 0 cdRngW := by
    show ∃ e ns t r1, genAttempt cdCfgOk cdRngW = .accepted e ns t r1
    exact ⟨CExpr.add (.leaf 0) (.leaf 1), [100, 100], 200, ⟨cdRngW.tape, 4⟩, rfl⟩
  exact ⟨hW, countdown_terminates_of_accepted cdCfgOk 0 cdRngW hW⟩

/-! ## C1: the displayed answer need not evaluate to the stated target -/

/-- A validated configuration under which a division with a non-dividing
divisor is accepted (targets from 1 upward). -/
def cdCfgBug : CountdownConfig :=
  { min_numbers := 2, max_numbers := 2, min_value := 1, max_value := 100,
    min_target := 1, max_target := 999, operators := ["+", "-", "*", "/"],
    shuffle := false, seed := some 0, size := 500 }

/-- A realised stream: `num_terms = 2`, numbers drawn 7 and 2, operator
`/`, divisor choice 2. -/
def cdTapeBug : Int → Nat → Nat := fun _ n =>
  if n = 1 then 6 else if n = 2 then 1 else if n = 3 then 3 else 0

/-- The sample `__getitem__` returns on that stream: answer `7/2`, stated
target 3. -/
def cdSampleBug : CountdownSample :=
  { question := countdownTemplate 0 "7, 2" 3
    answerExpr := CExpr.div (CExpr.leaf 0) (CExpr.leaf 1)
    answerNums := [7, 2]
    numbers := [7, 2]
    target := 3 }

/-- C1 fails on the code.  Under the validated config `cdCfgBug`, the
realised stream `cdTapeBug` makes `__getitem__` return the sample with
answer expression `7/2` and stated target 3 (the target lies within
`[min_target, max_target]`, so the sample is accepted): the division
branch picked divisor 2 without any divisibility check (`rng.choice` over
the nonzero remaining numbers), `int(Rational(7,2))` truncated 3.5 to 3,
and the displayed answer evaluates exactly to `7/2 ≠ 3`.  The code
contradicts its own comments "Ensure division results in integer" and
"Try to find a number that divides evenly". -/
theorem countdown_answer_evaluates_inexactly :
    cdCfgBug.validate = Except.ok () ∧
    countdownGetItem cdCfgBug 0 cdTapeBug 1 0 = some cdSampleBug ∧
    pyInt ⟨7, 2⟩ = 3 ∧
    cdSampleBug.target = 3 ∧
    (cdCfgBug.min_target ≤ cdSampleBug.target ∧ cdSampleBug.target ≤ cdCfgBug.max_target) ∧
    CExpr.evalRat cdSampleBug.answerNums cdSampleBug.answerExpr = some ((7 : Rat) / 2) ∧
    ((7 : Rat) / 2) ≠ ((cdSampleBug.target : Int) : Rat) := by
  refine ⟨rfl, by decide, by decide, rfl, by decide, ?_, by norm_num [cdSampleBug]⟩
  show CExpr.evalRat [7, 2] (CExpr.div (CExpr.leaf 0) (CExpr.leaf 1)) = some ((7 : Rat) / 2)
  simp [CExpr.evalRat]

/-! ## C10: positive numbers make the division fallbacks unreachable -/

/-- All symbol indices of the expression are below `k`. -/
def CExpr.LeavesLt : CExpr → Nat → Prop
  | .leaf i, k => i < k
  | .add a b, k => a.LeavesLt k ∧ b.LeavesLt k
  | .sub a b, k => a.LeavesLt k ∧ b.LeavesLt k
  | .mul a b, k => a.LeavesLt k ∧ b.LeavesLt k
  | .div a b, k => a.LeavesLt k ∧ b.LeavesLt k

theorem CExpr.LeavesLt.mono {e : CExpr} {k1 k2 : Nat} (h : e.LeavesLt k1)
    (hk : k1 ≤ k2) : e.LeavesLt k2 := by
  induction e with
  | leaf i => simp only [CExpr.LeavesLt] at h ⊢; omega
  | add a b iha ihb => exact ⟨iha h.1, ihb h.2⟩
  | sub a b iha ihb => exact ⟨iha h.1, ihb h.2⟩
  | mul a b iha ihb => exact ⟨iha h.1, ihb h.2⟩
  | div a b iha ihb => exact ⟨iha h.1, ihb h.2⟩

/-- Evaluation only reads the entries at the expression's leaf indices. -/
theorem CExpr.evalFrac_congr (e : CExpr) (k : Nat) (ns1 ns2 : List Int)
    (hl : e.LeavesLt k) (h : ∀ j, j < k → ns1.getD j 0 = ns2.getD j 0) :
    e.evalFrac ns1 = e.evalFrac ns2 := by
  induction e with
  | leaf i => simp only [CExpr.LeavesLt] at hl; simp only [CExpr.evalFrac, h i hl]
  | add a b iha ihb => simp only [CExpr.evalFrac, iha hl.1, ihb hl.2]
  | sub a b iha ihb => simp only [CExpr.evalFrac, iha hl.1, ihb hl.2]
  | mul a b iha ihb => simp only [CExpr.evalFrac, iha hl.1, ihb hl.2]
  | div a b iha ihb => simp only [CExpr.evalFrac, iha hl.1, ihb hl.2]

theorem Rng.randint_some_bounds (r : Rng) (a b v : Int) (r1 : Rng)
    (h : r.randint a b = some (v, r1)) : a ≤ v ∧ v ≤ b := by
  unfold Rng.randint at h
  by_cases hab : a > b
  · simp [hab] at h
  · simp only [hab, if_false, Rng.next, Option.some_inj, Prod.mk.injEq] at h
    obtain ⟨hv, -⟩ := h
    have hlt : r.tape r.pos % (b - a + 1).toNat < (b - a + 1).toNat :=
      Nat.mod_lt _ (by omega)
    omega

/-- Every drawn source number lies within `[min_value, max_value]`. -/
theorem drawNumbersGo_inv (cfg : CountdownConfig) (n : Nat) :
    ∀ (r : Rng) (acc ns : List Int) (r2 : Rng),
    drawNumbersGo cfg n r acc = some (ns, r2) →
    ns.length = acc.length + n ∧
    ∀ x ∈ ns, x ∈ acc ∨ (cfg.min_value ≤ x ∧ x ≤ cfg.max_value) := by
  induction n with
  | zero =>
    intro r acc ns r2 h
    simp only [drawNumbersGo, Option.some_inj, Prod.mk.injEq] at h
    obtain ⟨rfl, -⟩ := h
    exact ⟨by omega, fun x hx => Or.inl hx⟩
  | succ n ih =>
    intro r acc ns r2 h
    simp only [drawNumbersGo] at h
    cases h1 : r.randint cfg.min_value cfg.max_value with
    | none => rw [h1] at h; simp at h
    | some p =>
      obtain ⟨v, r1⟩ := p
      rw [h1] at h
      simp only [Option.bind_eq_bind, Option.some_bind] at h
      obtain ⟨hb1, hb2⟩ := Rng.randint_some_bounds r _ _ v r1 h1
      obtain ⟨hlen, hmem⟩ := ih r1 (acc ++ [v]) ns r2 h
      simp only [List.length_append, List.length_cons, List.length_nil] at hlen
      refine ⟨by omega, ?_⟩
      intro x hx
      rcases hmem x hx with hacc | hb
      · rcases List.mem_append.mp hacc with h' | h'
        · exact Or.inl h'
        · simp at h'
          subst h'
          exact Or.inr ⟨hb1, hb2⟩
      · exact Or.inr hb

/-- One building-loop iteration on an all-positive numbers list keeps
every number positive, never runs either fallback branch, and keeps the
expression exactly evaluable (no zero denominator). -/
theorem buildStep_inv (ops : List String) (st st' : BuildOut) (i : Nat)
    (h : buildStep ops st i = some st')
    (hpos : ∀ n ∈ st.numbers, 0 < n)
    (hi : i < st.numbers.length)
    (hlv : st.expr.LeavesLt i)
    (hev : (st.expr.evalFrac st.numbers).isSome = true) :
    (∀ n ∈ st'.numbers, 0 < n) ∧
    st'.numbers.length = st.numbers.length ∧
    st'.addFb = st.addFb ∧ st'.subFb = st.subFb ∧
    st'.expr.LeavesLt (i + 1) ∧
    (st'.expr.evalFrac st'.numbers).isSome = true := by
  obtain ⟨x, hx⟩ := Option.isSome_iff_exists.mp hev
  have hget : st.numbers.getD i 0 = st.numbers.get ⟨i, hi⟩ := by
    rw [List.getD_eq_getElem?_getD, List.getElem?_eq_getElem hi]; rfl
  have hgetpos : 0 < st.numbers.getD i 0 := by
    rw [hget]; exact hpos _ (List.getElem_mem hi)
  have hleaf : CExpr.LeavesLt (CExpr.leaf i) (i + 1) := by
    simp [CExpr.LeavesLt]
  unfold buildStep at h
  cases hc : st.rng.choice ops with
  | none => rw [hc] at h; simp at h
  | some p =>
    obtain ⟨op, r1⟩ := p
    rw [hc] at h
    simp only [Option.bind_eq_bind, Option.some_bind] at h
    by_cases hop1 : op = "+"
    · rw [if_pos hop1] at h
      simp only [Option.pure_def, Option.some_inj] at h
      subst h
      exact ⟨hpos, rfl, rfl, rfl, ⟨hlv.mono (by omega), hleaf⟩, by simp [CExpr.evalFrac, hx]⟩
    · rw [if_neg hop1] at h
      by_cases hop2 : op = "-"
      · rw [if_pos hop2] at h
        simp only [Option.pure_def, Option.some_inj] at h
        subst h
        exact ⟨hpos, rfl, rfl, rfl, ⟨hlv.mono (by omega), hleaf⟩, by simp [CExpr.evalFrac, hx]⟩
      · rw [if_neg hop2] at h
        by_cases hop3 : op = "*"
        · rw [if_pos hop3] at h
          simp only [Option.pure_def, Option.some_inj] at h
          subst h
          exact ⟨hpos, rfl, rfl, rfl, ⟨hlv.mono (by omega), hleaf⟩, by simp [CExpr.evalFrac, hx]⟩
        · rw [if_neg hop3] at h
          rw [if_pos (show st.numbers.getD i 0 ≠ 0 by omega)] at h
          have hmemdrop : st.numbers.get ⟨i, hi⟩ ∈ st.numbers.drop i := by
            have h0 : 0 < (st.numbers.drop i).length := by simp; omega
            have he : (st.numbers.drop i).get ⟨0, h0⟩ = st.numbers.get ⟨i, hi⟩ := by
              simp only [List.get_eq_getElem, List.getElem_drop]
              simp
            rw [← he]
            exact List.get_mem _ _ h0
          have hmemrem : st.numbers.get ⟨i, hi⟩ ∈ (st.numbers.drop i).filter (fun n => n != 0) := by
            refine List.mem_filter.mpr ⟨hmemdrop, ?_⟩
            have := hpos _ (List.getElem_mem hi)
            simp only [bne_iff_ne, List.get_eq_getElem]
            omega
          rw [if_pos (show ((st.numbers.drop i).filter (fun n => n != 0)).length ≠ 0 by
            intro h0
            exact (List.ne_nil_of_mem hmemrem) (List.length_eq_zero.mp h0))] at h
          cases hc2 : r1.choice ((st.numbers.drop i).filter (fun n => n != 0)) with
          | none => rw [hc2] at h; simp at h
          | some p2 =>
            obtain ⟨dv, r2⟩ := p2
            rw [hc2] at h
            simp only [Option.bind_eq_bind, Option.some_bind, Option.pure_def,
              Option.some_inj] at h
            subst h
            have hdvmem := Rng.choice_eq_some_mem _ _ _ _ hc2
            obtain ⟨hdrop, hdvne⟩ := List.mem_filter.mp hdvmem
            have hdvpos : 0 < dv := hpos dv (List.mem_of_mem_drop hdrop)
            have hseti : (st.numbers.set i dv).getD i 0 = dv := by
              rw [List.getD_eq_getElem?_getD, List.getElem?_set_self hi]; rfl
            have hcongr : st.expr.evalFrac (st.numbers.set i dv) = st.expr.evalFrac st.numbers :=
              CExpr.evalFrac_congr _ i _ _ hlv (fun j hj => by
                rw [List.getD_eq_getElem?_getD, List.getD_eq_getElem?_getD,
                  List.getElem?_set_ne (show i ≠ j by omega)])
            refine ⟨?_, by simp, rfl, rfl, ⟨hlv.mono (by omega), hleaf⟩, ?_⟩
            · intro n hn
              rcases List.mem_or_eq_of_mem_set hn with h' | h'
              · exact hpos n h'
              · subst h'; exact hdvpos
            · simp only [CExpr.evalFrac, hcongr, hx, Option.bind_eq_bind, Option.some_bind,
                hseti]
              rw [if_neg (show ¬ (Frac.mk dv 1).num = 0 by simp; omega)]
              simp

theorem buildLoop_inv (ops : List String) (count : Nat) :
    ∀ (i : Nat) (st st' : BuildOut),
    buildLoop ops count i st = some st' →
    i + count ≤ st.numbers.length →
    (∀ n ∈ st.numbers, 0 < n) →
    st.expr.LeavesLt i →
    (st.expr.evalFrac st.numbers).isSome = true →
    (∀ n ∈ st'.numbers, 0 < n) ∧ st'.numbers.length = st.numbers.length ∧
    st'.addFb = st.addFb ∧ st'.subFb = st.subFb ∧
    (st'.expr.evalFrac st'.numbers).isSome = true := by
  induction count with
  | zero =>
    intro i st st' h _ hpos _ hev
    simp only [buildLoop, Option.some_inj] at h
    subst h
    exact ⟨hpos, rfl, rfl, rfl, hev⟩
  | succ count ih =>
    intro i st st' h hlen hpos hlv hev
    simp only [buildLoop] at h
    cases hstep : buildStep ops st i with
    | none => rw [hstep] at h; simp at h
    | some st1 =>
      rw [hstep] at h
      simp only [Option.bind_eq_bind, Option.some_bind] at h
      obtain ⟨hpos1, hlen1, hadd1, hsub1, hlv1, hev1⟩ :=
        buildStep_inv ops st st1 i hstep hpos (by omega) hlv hev
      obtain ⟨hpos2, hlen2, hadd2, hsub2, hev2⟩ :=
        ih (i + 1) st1 st' h (by rw [hlen1]; omega) hpos1 hlv1 hev1
      exact ⟨hpos2, hlen2.trans hlen1, hadd2.trans hadd1, hsub2.trans hsub1, hev2⟩

/-- The unreduced-fraction evaluation agrees with exact evaluation in
`ℚ`: a defined `evalFrac` value has a nonzero denominator and `evalRat`
returns its quotient. -/
theorem CExpr.evalFrac_toRat (ns : List Int) (e : CExpr) :
    ∀ f : Frac, e.evalFrac ns = some f →
    f.den ≠ 0 ∧ e.evalRat ns = some ((f.num : Rat) / (f.den : Rat)) := by
  induction e with
  | leaf i =>
    intro f h
    simp only [CExpr.evalFrac, Option.some_inj] at h
    subst h
    exact ⟨one_ne_zero, by simp [CExpr.evalRat]⟩
  | add a b iha ihb =>
    intro f h
    simp only [CExpr.evalFrac] at h
    cases ha : a.evalFrac ns with
    | none => rw [ha] at h; simp at h
    | some x =>
      cases hb : b.evalFrac ns with
      | none => rw [ha, hb] at h; simp at h
      | some y =>
        rw [ha, hb] at h
        simp only [Option.bind_eq_bind, Option.some_bind, Option.pure_def,
          Option.some_inj] at h
        subst h
        obtain ⟨hxd, hxr⟩ := iha x ha
        obtain ⟨hyd, hyr⟩ := ihb y hb
        refine ⟨mul_ne_zero hxd hyd, ?_⟩
        simp only [CExpr.evalRat, hxr, hyr, Option.bind_eq_bind, Option.some_bind,
          Option.pure_def, Option.some_inj]
        have hx0 : ((x.den : Rat)) ≠ 0 := by exact_mod_cast hxd
        have hy0 : ((y.den : Rat)) ≠ 0 := by exact_mod_cast hyd
        push_cast
        field_simp
  | sub a b iha ihb =>
    intro f h
    simp only [CExpr.evalFrac] at h
    cases ha : a.evalFrac ns with
    | none => rw [ha] at h; simp at h
    | some x =>
      cases hb : b.evalFrac ns with
      | none => rw [ha, hb] at h; simp at h
      | some y =>
        rw [ha, hb] at h
        simp only [Option.bind_eq_bind, Option.some_bind, Option.pure_def,
          Option.some_inj] at h
        subst h
        obtain ⟨hxd, hxr⟩ := iha x ha
        obtain ⟨hyd, hyr⟩ := ihb y hb
        refine ⟨mul_ne_zero hxd hyd, ?_⟩
        simp only [CExpr.evalRat, hxr, hyr, Option.bind_eq_bind, Option.some_bind,
          Option.pure_def, Option.some_inj]
        have hx0 : ((x.den : Rat)) ≠ 0 := by exact_mod_cast hxd
        have hy0 : ((y.den : Rat)) ≠ 0 := by exact_mod_cast hyd
        push_cast
        field_simp
        ring
  | mul a b iha ihb =>
    intro f h
    simp only [CExpr.evalFrac] at h
    cases ha : a.evalFrac ns with
    | none => rw [ha] at h; simp at h
    | some x =>
      cases hb : b.evalFrac ns with
      | none => rw [ha, hb] at h; simp at h
      | some y =>
        rw [ha, hb] at h
        simp only [Option.bind_eq_bind, Option.some_bind, Option.pure_def,
          Option.some_inj] at h
        subst h
        obtain ⟨hxd, hxr⟩ := iha x ha
        obtain ⟨hyd, hyr⟩ := ihb y hb
        refine ⟨mul_ne_zero hxd hyd, ?_⟩
        simp only [CExpr.evalRat, hxr, hyr, Option.bind_eq_bind, Option.some_bind,
          Option.pure_def, Option.some_inj]
        have hx0 : ((x.den : Rat)) ≠ 0 := by exact_mod_cast hxd
        have hy0 : ((y.den : Rat)) ≠ 0 := by exact_mod_cast hyd
        push_cast
        field_simp
  | div a b iha ihb =>
    intro f h
    simp only [CExpr.evalFrac] at h
    cases ha : a.evalFrac ns with
    | none => rw [ha] at h; simp at h
    | some x =>
      cases hb : b.evalFrac ns with
      | none => rw [ha, hb] at h; simp at h
      | some y =>
        rw [ha, hb] at h
        simp only [Option.bind_eq_bind, Option.some_bind] at h
        by_cases hy : y.num = 0
        · rw [if_pos hy] at h; simp at h
        · rw [if_neg hy] at h
          simp only [Option.pure_def, Option.some_inj] at h
          subst h
          obtain ⟨hxd, hxr⟩ := iha x ha
          obtain ⟨hyd, hyr⟩ := ihb y hb
          refine ⟨mul_ne_zero hxd hy, ?_⟩
          simp only [CExpr.evalRat, hxr, hyr, Option.bind_eq_bind, Option.some_bind]
          rw [if_neg (show ¬ ((y.num : Rat) / (y.den : Rat) = 0) by
            rw [div_eq_zero_iff]
            simp [hy, hyd])]
          simp only [Option.pure_def, Option.some_inj]
          have hx0 : ((x.den : Rat)) ≠ 0 := by exact_mod_cast hxd
          have hy0 : ((y.den : Rat)) ≠ 0 := by exact_mod_cast hyd
          have hyn : ((y.num : Rat)) ≠ 0 := by exact_mod_cast hy
          push_cast
          field_simp

theorem CountdownConfig.validate_ok_pos (c : CountdownConfig) (u : Unit)
    (h : c.validate = Except.ok u) : 1 < c.min_numbers ∧ 0 < c.min_value := by
  unfold CountdownConfig.validate at h
  split_ifs at h
  omega

/-- C10.  Under any validated config (`min_value > 0` in particular),
every number in the list built by `_generate_expression`'s loop is
strictly positive throughout — the divisor swap only writes values drawn
from the nonzero entries — so the `numbers[i] == 0` guard always takes
the division path: the addition fallback (`addFb`) and the empty-
`remaining` subtraction fallback (`subFb`) never run, and substituting
the final numbers into the built expression divides by no zero
denominator, in unreduced-fraction arithmetic and in exact `ℚ`
arithmetic alike. -/
theorem countdown_positive_numbers_no_fallback (cfg : CountdownConfig) (rng : Rng)
    (out : BuildOut) (hv : cfg.validate = Except.ok ())
    (h : genBuild cfg rng = some out) :
    out.addFb = 0 ∧ out.subFb = 0 ∧ (∀ n ∈ out.numbers, 0 < n) ∧
    (out.expr.evalFrac out.numbers).isSome = true ∧
    (out.expr.evalRat out.numbers).isSome = true := by
  obtain ⟨hmn, hmv⟩ := cfg.validate_ok_pos () hv
  obtain ⟨hb1, hb2, hb3⟩ := cfg.validate_ok_bounds () hv
  unfold genBuild at h
  cases h1 : rng.randint cfg.min_numbers cfg.max_numbers with
  | none => rw [h1] at h; simp at h
  | some p1 =>
    obtain ⟨ntI, r1⟩ := p1
    rw [h1] at h
    simp only [Option.bind_eq_bind, Option.some_bind] at h
    obtain ⟨hnt1, hnt2⟩ := Rng.randint_some_bounds rng _ _ ntI r1 h1
    cases h2 : drawNumbersGo cfg ntI.toNat r1 [] with
    | none => rw [h2] at h; simp at h
    | some p2 =>
      obtain ⟨ns, r2⟩ := p2
      rw [h2] at h
      simp only [Option.some_bind] at h
      obtain ⟨hlen, hmem⟩ := drawNumbersGo_inv cfg ntI.toNat r1 [] ns r2 h2
      simp only [List.length_nil, Nat.zero_add] at hlen
      have hpos : ∀ n ∈ ns, 0 < n := by
        intro n hn
        rcases hmem n hn with h' | h'
        · simp at h'
        · omega
      obtain ⟨hposO, hlenO, haddO, hsubO, hevO⟩ :=
        buildLoop_inv cfg.operators (ntI.toNat - 1) 1 ⟨ns, .leaf 0, r2, 0, 0⟩ out h
          (by simp only [hlen]; omega) hpos (by simp [CExpr.LeavesLt])
          (by simp [CExpr.evalFrac])
      refine ⟨haddO, hsubO, hposO, hevO, ?_⟩
      obtain ⟨f, hf⟩ := Option.isSome_iff_exists.mp hevO
      obtain ⟨-, hr⟩ := CExpr.evalFrac_toRat out.numbers out.expr f hf
      simp [hr]


/-- The default `CountdownConfig()`. -/
def cdCfgDefault : CountdownConfig := {}

/-- The build result of the default config on the constant-0 stream:
numbers `[1, 1, 1, 1]`, expression `x0 + x1 + x2 + x3`, no fallbacks. -/
def cdOutW : BuildOut :=
  { numbers := [1, 1, 1, 1]
    expr := CExpr.add (CExpr.add (CExpr.add (.leaf 0) (.leaf 1)) (.leaf 2)) (.leaf 3)
    rng := ⟨fun _ => 0, 8⟩
    addFb := 0
    subFb := 0 }

/-- Witness for C10 at the default config on a concrete stream. -/
theorem countdown_positive_numbers_no_fallback_witness :
    cdCfgDefault.validate = Except.ok () ∧
    genBuild cdCfgDefault cdRngW = some cdOutW ∧
    (cdOutW.addFb = 0 ∧ cdOutW.subFb = 0 ∧ (∀ n ∈ cdOutW.numbers, 0 < n) ∧
      (cdOutW.expr.evalFrac cdOutW.numbers).isSome = true ∧
      (cdOutW.expr.evalRat cdOutW.numbers).isSome = true) :=
  ⟨rfl, rfl, countdown_positive_numbers_no_fallback cdCfgDefault cdRngW cdOutW rfl rfl⟩
